import Mathlib

/-!
Verification development for the LoRA adapter implementation in
`src/peft/tuners/lora.py` (repository tisles/peft).

The embedding works over exact rational arithmetic: a `ℚ`-valued tensor stands
for the floating-point tensor, so "equal within floating-point tolerance" in
the specification becomes exact equality here.  Operations that PyTorch rejects
at runtime (shape mismatches, missing attributes, invalid constructor
arguments) are modelled as `Option`/`Except` failures.
-/

set_option autoImplicit false

namespace Peft

/-- A 2-D rational tensor.  `entry` is total; only indices inside the declared
`rows × cols` shape are ever read by the embedded operations. -/
structure Mat where
  rows : ℕ
  cols : ℕ
  entry : ℕ → ℕ → ℚ

theorem Mat.ext_of {M N : Mat} (hr : M.rows = N.rows) (hc : M.cols = N.cols)
    (he : M.entry = N.entry) : M = N := by
  cases M; cases N; cases hr; cases hc; cases he; rfl

/-- Python `.T` / `.transpose(-2, -1)` on a 2-D tensor. -/
def Mat.transpose (M : Mat) : Mat := ⟨M.cols, M.rows, fun i j => M.entry j i⟩

/-- Modelled from the spec: `transpose(weight, fan_in_fan_out)` from
`peft.utils` (imported at src line 31; the utils module is not under `src/`).
Per the spec's `transpose_base_weight` flag it returns the transposed tensor
when the flag is set and the tensor unchanged otherwise. -/
def transposeIf (fan : Bool) (M : Mat) : Mat := if fan then M.transpose else M

/-- Multiplication of a tensor by a scalar (`* self.scaling`). -/
def Mat.smul (c : ℚ) (M : Mat) : Mat := ⟨M.rows, M.cols, fun i j => c * M.entry i j⟩

/-- `torch.zeros` / `nn.init.zeros_`. -/
def zeroMat (m n : ℕ) : Mat := ⟨m, n, fun _ _ => 0⟩

/-- Elementwise `+=` of two 2-D tensors with PyTorch's shape check
(broadcasting does not occur at the modelled call sites). -/
def matAdd (A B : Mat) : Option Mat :=
  if A.rows = B.rows ∧ A.cols = B.cols then
    some ⟨A.rows, A.cols, fun i j => A.entry i j + B.entry i j⟩
  else none

/-- Elementwise `-=` of two 2-D tensors with PyTorch's shape check. -/
def matSub (A B : Mat) : Option Mat :=
  if A.rows = B.rows ∧ A.cols = B.cols then
    some ⟨A.rows, A.cols, fun i j => A.entry i j - B.entry i j⟩
  else none

/-- Python `@` on 2-D tensors (contraction over the left factor's columns). -/
def matMul (A B : Mat) : Mat :=
  ⟨A.rows, B.cols, fun i j => ∑ k ∈ Finset.range A.cols, A.entry i k * B.entry k j⟩

/-- `F.linear(x, W, b) = x @ W.T + b` on a 2-D input `x`. -/
def fLinear (x W : Mat) (b : Option (ℕ → ℚ)) : Mat :=
  ⟨x.rows, W.rows, fun i j =>
    (∑ k ∈ Finset.range W.cols, x.entry i k * W.entry j k) +
      (match b with | some f => f j | none => 0)⟩

/-!  ## `lora.Linear` (src lines 292-358) -/

/-- State of a `lora.Linear` layer: `nn.Linear` plus the `LoraLayer` mixin
(src lines 272-316).  `loraAB` holds `(lora_A.weight, lora_B.weight)`; the pair
is present exactly when the constructor ran with `r > 0` — otherwise the
attributes `lora_A`/`lora_B` do not exist on the object and accessing them
raises `AttributeError`, modelled below as a `none` result.  Dropout is the
identity (eval mode, or `lora_dropout = 0`); boolean training flags carry no
observable content for the verified claims and are not tracked. -/
structure Linear where
  in_features : ℕ
  out_features : ℕ
  weight : Mat
  bias : Option (ℕ → ℚ)
  r : ℕ
  lora_alpha : ℚ
  fan_in_fan_out : Bool
  merge_weights : Bool
  loraAB : Option (Mat × Mat)
  merged : Bool

/-- `Linear.__init__` followed by `reset_parameters` (src lines 294-325).
`W0` is the `(out_features, in_features)` base weight left by
`nn.Linear.reset_parameters`, `A0` the kaiming-uniform random value of
`lora_A.weight`; both are free parameters of the embedding (random
initialisation).  `lora_B.weight` is zero-initialised.  When `fan_in_fan_out`
is set the stored weight is transposed (`self.weight.data = self.weight.data.T`,
src line 318). -/
def Linear.init (inF outF r : ℕ) (alpha : ℚ) (fan mergeW : Bool)
    (W0 : Mat) (b : Option (ℕ → ℚ)) (A0 : Mat) : Linear :=
  { in_features := inF
    out_features := outF
    weight := transposeIf fan W0
    bias := b
    r := r
    lora_alpha := alpha
    fan_in_fan_out := fan
    merge_weights := mergeW
    loraAB := if 0 < r then some (A0, zeroMat outF r) else none
    merged := false }

/-- `self.scaling = self.lora_alpha / self.r` (src line 313; only ever used
with `r > 0`). -/
def Linear.scaling (st : Linear) : ℚ := st.lora_alpha / st.r

/-- The quantity `transpose(lora_B.weight @ lora_A.weight, fan_in_fan_out) *
scaling` added to or subtracted from the base weight (src lines 334-336 and
346-348), as a function of the layout flag and the scaling factor. -/
def deltaPlain (fan : Bool) (sc : ℚ) (A B : Mat) : Mat :=
  (transposeIf fan (matMul B A)).smul sc

/-- The merge delta of a `lora.Linear` layer (src lines 334-336, 346-348). -/
def Linear.deltaW (st : Linear) (A B : Mat) : Mat :=
  deltaPlain st.fan_in_fan_out st.scaling A B

/-- `Linear.train` (src lines 327-337).  The first statements access
`self.lora_A` / `self.lora_B`, which exist only when the layer was built with
`r > 0`; otherwise `AttributeError` is raised (result `none`).  The merge
bookkeeping does not depend on the `mode` argument, which is therefore not a
parameter here. -/
def Linear.train (st : Linear) : Option Linear :=
  match st.loraAB with
  | none => none
  | some (A, B) =>
    if st.merge_weights ∧ st.merged = true then
      if 0 < st.r then
        (matSub st.weight (st.deltaW A B)).map fun w =>
          { st with weight := w, merged := false }
      else some { st with merged := false }
    else some st

/-- `Linear.eval` (src lines 339-349).  Its first statement
`nn.Linear.eval(self)` is `nn.Module.eval`, which PyTorch defines as
`self.train(False)`; the dynamic dispatch lands on the override
`Linear.train`, so an eval call first runs the (un)merge logic of `train` and
only then the merge branch of `eval`.  Note `self.merged = True` (src line
349) sits outside the `r > 0` guard. -/
def Linear.eval (st : Linear) : Option Linear := do
  let st0 ← st.train
  let _ ← st0.loraAB
  if st0.merge_weights ∧ st0.merged = false then
    if 0 < st0.r then
      match st0.loraAB with
      | none => none
      | some (A, B) =>
        (matAdd st0.weight (st0.deltaW A B)).map fun w =>
          { st0 with weight := w, merged := true }
    else some { st0 with merged := true }
  else some st0

/-- `Linear.forward` (src lines 351-358) on a 2-D input batch `x`; dropout is
the identity.  `lora_A(x)` and `lora_B(·)` are `nn.Linear` module calls,
i.e. `F.linear` without bias. -/
def Linear.forward (st : Linear) (x : Mat) : Option Mat :=
  if 0 < st.r ∧ st.merged = false then
    match st.loraAB with
    | none => none
    | some (A, B) =>
      matAdd (fLinear x (transposeIf st.fan_in_fan_out st.weight) st.bias)
        ((fLinear (fLinear x A none) B none).smul st.scaling)
  else
    some (fLinear x (transposeIf st.fan_in_fan_out st.weight) st.bias)

/-!  ## Shaped tensors and `F.conv1d`

The grouped layer stores `lora_B` as an `nn.Conv1d` module; its weight is a
3-D tensor and the merge path manipulates tensor ranks (`unsqueeze`,
`squeeze`), so shapes of arbitrary rank must be tracked there. -/

/-- An n-D rational tensor: a shape together with a total entry function read
only at multi-indices inside the shape. -/
structure Tensor where
  shape : List ℕ
  entry : List ℕ → ℚ

/-- View a 2-D `Mat` as a rank-2 `Tensor`. -/
def Mat.toT2 (M : Mat) : Tensor :=
  ⟨[M.rows, M.cols], fun ix =>
    match ix with
    | [i, j] => M.entry i j
    | _ => 0⟩

/-- A rank-2 tensor back as a `Mat` (fails on any other rank). -/
def Tensor.toMat2 (t : Tensor) : Option Mat :=
  match t.shape with
  | [m, n] => some ⟨m, n, fun i j => t.entry [i, j]⟩
  | _ => none

/-- `torch.unsqueeze(d)`: insert a singleton axis at position `d`
(`unsqueeze(-1)` is `unsqueeze` at position `shape.length`). -/
def Tensor.unsqueeze (t : Tensor) (d : ℕ) : Tensor :=
  ⟨t.shape.take d ++ 1 :: t.shape.drop d, fun ix => t.entry (ix.take d ++ ix.drop (d + 1))⟩

/-- `torch.squeeze(0)`: drop the leading axis when it has extent 1. -/
def Tensor.squeeze0 (t : Tensor) : Tensor :=
  match t.shape with
  | 1 :: rest => ⟨rest, fun ix => t.entry (0 :: ix)⟩
  | _ => t

/-- The weight tensor stored by `nn.Conv1d(in_ch, out_ch, kernel_size=1, groups=2)`:
shape `(out_ch, in_ch / 2, 1)`; `B` holds its entries with the singleton kernel
axis dropped. -/
def convWeight3 (B : Mat) : Tensor :=
  ⟨[B.rows, B.cols, 1], fun ix =>
    match ix with
    | [o, j, _] => B.entry o j
    | _ => 0⟩

/-- `F.conv1d(x, w, bias=None, stride=1, padding=0, groups=g)`.  The weight
must be rank 3, `(c_out, c_in / g, k)`; the input rank 2 `(c_in, l)`
(unbatched) or rank 3 `(n, c_in, l)`.  PyTorch's checks: the weight rank, the
channel equation `c_in = (c_in / g) * g`, `g ∣ c_out`, and a positive output
length.  Output channel `o` belongs to group `o / (c_out / g)` and convolves
the input channels of that group. -/
def fConv1d (x w : Tensor) (g : ℕ) : Option Tensor :=
  match x.shape, w.shape with
  | [cin, l], [cout, cing, k] =>
    if 0 < g ∧ cin = cing * g ∧ cout % g = 0 ∧ 0 < k ∧ k ≤ l then
      some ⟨[cout, l - k + 1], fun ix =>
        match ix with
        | [o, p] =>
          ∑ j ∈ Finset.range cing, ∑ t ∈ Finset.range k,
            w.entry [o, j, t] * x.entry [o / (cout / g) * cing + j, p + t]
        | _ => 0⟩
    else none
  | [n, cin, l], [cout, cing, k] =>
    if 0 < g ∧ cin = cing * g ∧ cout % g = 0 ∧ 0 < k ∧ k ≤ l then
      some ⟨[n, cout, l - k + 1], fun ix =>
        match ix with
        | [b, o, p] =>
          ∑ j ∈ Finset.range cing, ∑ t ∈ Finset.range k,
            w.entry [o, j, t] * x.entry [b, o / (cout / g) * cing + j, p + t]
        | _ => 0⟩
    else none
  | _, _ => none

/-- The forward call of the `nn.Conv1d` module `self.lora_B` (constructed with
`kernel_size=1` and the hardcoded `groups=2`, src lines 384-390) on an input
tensor. -/
def conv1dModule (B : Mat) (input : Tensor) : Option Tensor :=
  fConv1d input (convWeight3 B) 2

/-!  ## `lora.MergedLinear` (src lines 361-454) -/

/-- `self.lora_ind` (src lines 395-397): a boolean index of length
`out_features`, viewed as `len(enable_lora)` equal partitions with the rows
selected by `enable_lora` set to `True`; position `i` belongs to partition
`i / (out_features / len(enable_lora))`. -/
def loraIndOf (enable_lora : List Bool) (outF : ℕ) : List Bool :=
  (List.range outF).map fun i => enable_lora.getD (i / (outF / enable_lora.length)) false

/-- State of a `lora.MergedLinear` layer.  `loraABind` holds
`(lora_A.weight, lora_B.weight-without-kernel-axis, lora_ind)`; present exactly
when the constructor ran with `r > 0` and a `True` entry in `enable_lora`
(otherwise the attributes do not exist, `AttributeError`). -/
structure MergedLinear where
  in_features : ℕ
  out_features : ℕ
  weight : Mat
  bias : Option (ℕ → ℚ)
  r : ℕ
  lora_alpha : ℚ
  enable_lora : List Bool
  fan_in_fan_out : Bool
  merge_weights : Bool
  loraABind : Option (Mat × Mat × List Bool)
  merged : Bool

/-- Constructor failures of `MergedLinear.__init__`. -/
inductive CtorError where
  /-- `out_features % len(enable_lora)` with an empty list: `ZeroDivisionError`. -/
  | zeroDivision : CtorError
  /-- the explicit guard `ValueError("The length of enable_lora must divide out_features")` (src 377-378). -/
  | lengthNotDividing : CtorError
  /-- `nn.Conv1d(r*sum, out/len*sum, kernel_size=1, groups=2)` rejects channel
  counts not divisible by its hardcoded `groups=2` (src lines 384-390). -/
  | convGroups : CtorError
deriving DecidableEq

/-- `MergedLinear.__init__` followed by `reset_parameters` (src lines 363-407).
`W0` is the `(out_features, in_features)` base weight after reset, `A0` the
random init of `lora_A.weight`; `lora_B.weight` is zero-initialised.  The
construction of the `lora_B` Conv1d with hardcoded `groups=2` requires both
`r * sum(enable_lora)` and `out_features // len(enable_lora) * sum(enable_lora)`
to be divisible by 2. -/
def MergedLinear.init (inF outF r : ℕ) (alpha : ℚ) (enable_lora : List Bool)
    (fan mergeW : Bool) (W0 : Mat) (b : Option (ℕ → ℚ)) (A0 : Mat) :
    Except CtorError MergedLinear :=
  if enable_lora.length = 0 then .error .zeroDivision
  else if outF % enable_lora.length ≠ 0 then .error .lengthNotDividing
  else
    if 0 < r ∧ enable_lora.any id = true then
      if (r * enable_lora.count true) % 2 = 0 ∧
          (outF / enable_lora.length * enable_lora.count true) % 2 = 0 then
        .ok { in_features := inF
              out_features := outF
              weight := transposeIf fan W0
              bias := b
              r := r
              lora_alpha := alpha
              enable_lora := enable_lora
              fan_in_fan_out := fan
              merge_weights := mergeW
              loraABind := some (A0,
                zeroMat (outF / enable_lora.length * enable_lora.count true)
                  ((r * enable_lora.count true) / 2),
                loraIndOf enable_lora outF)
              merged := false }
      else .error .convGroups
    else
      .ok { in_features := inF
            out_features := outF
            weight := transposeIf fan W0
            bias := b
            r := r
            lora_alpha := alpha
            enable_lora := enable_lora
            fan_in_fan_out := fan
            merge_weights := mergeW
            loraABind := none
            merged := false }

/-- `MergedLinear.zero_pad` (src lines 409-413) on a 2-D argument `x`:
`result = x.new_zeros(x.rows, out_features)`;
`result[:, lora_ind] = x.reshape(-1, k)` with
`k = out_features // len(enable_lora) * sum(enable_lora)`.
The reshape requires `k ∣ x.rows * x.cols`; the masked assignment requires the
reshaped row count to equal `x.rows` and the number of `True` positions of
`lora_ind` to equal `k`.  Row `i`, true-column `j` of rank `q` receives flat
element `i * k + q` of `x` (row-major). -/
def zeroPad (lora_ind : List Bool) (outF k : ℕ) (x : Mat) : Option Mat :=
  if 0 < k ∧ x.rows * x.cols % k = 0 ∧ x.rows * x.cols / k = x.rows ∧
      lora_ind.count true = k then
    some ⟨x.rows, outF, fun i j =>
      if lora_ind.getD j false then
        x.entry ((i * k + (lora_ind.take j).count true) / x.cols)
          ((i * k + (lora_ind.take j).count true) % x.cols)
      else 0⟩
  else none

/-- `self.scaling` of `MergedLinear` (src line 391). -/
def MergedLinear.scaling (st : MergedLinear) : ℚ := st.lora_alpha / st.r

/-- The `delta_w` of `MergedLinear.train`/`eval` (src lines 422-426, 437-441):
`F.conv1d(lora_A.weight.data.unsqueeze(0), lora_B.weight.data.unsqueeze(-1),
groups=sum(enable_lora)).squeeze(0)`.  `lora_B.weight` is the 3-D Conv1d
weight, so `unsqueeze(-1)` passes a 4-D weight to `F.conv1d`. -/
def MergedLinear.deltaW (st : MergedLinear) (A B : Mat) : Option Mat := do
  let t ← fConv1d (A.toT2.unsqueeze 0) ((convWeight3 B).unsqueeze 3)
      (st.enable_lora.count true)
  t.squeeze0.toMat2

/-- The `k` used by `zero_pad`'s reshape:
`out_features // len(enable_lora) * sum(enable_lora)`. -/
def MergedLinear.padK (st : MergedLinear) : ℕ :=
  st.out_features / st.enable_lora.length * st.enable_lora.count true

/-- `MergedLinear.train` (src lines 415-428); accesses `self.lora_A` first
(`AttributeError` when absent); the unmerge branch reconstructs `delta_w`,
applies `zero_pad(transpose(delta_w * scaling, fan_in_fan_out))` and
subtracts it from the stored weight. -/
def MergedLinear.train (st : MergedLinear) : Option MergedLinear :=
  match st.loraABind with
  | none => none
  | some (A, B, ind) =>
    if st.merge_weights ∧ st.merged = true then
      if 0 < st.r ∧ st.enable_lora.any id = true then do
        let d ← st.deltaW A B
        let zp ← zeroPad ind st.out_features st.padK
          (transposeIf st.fan_in_fan_out (d.smul st.scaling))
        let w ← matSub st.weight zp
        some { st with weight := w, merged := false }
      else some { st with merged := false }
    else some st

/-- `MergedLinear.eval` (src lines 430-443); as with `Linear.eval`,
`nn.Linear.eval(self)` is `self.train(False)` dispatching to the override
`MergedLinear.train`, then the merge branch runs (`self.merged = True` at
src line 443 sits outside the inner guard). -/
def MergedLinear.eval (st : MergedLinear) : Option MergedLinear := do
  let st0 ← st.train
  let _ ← st0.loraABind
  if st0.merge_weights ∧ st0.merged = false then
    if 0 < st0.r ∧ st0.enable_lora.any id = true then
      match st0.loraABind with
      | none => none
      | some (A, B, ind) => do
        let d ← st0.deltaW A B
        let zp ← zeroPad ind st0.out_features st0.padK
          (transposeIf st0.fan_in_fan_out (d.smul st0.scaling))
        let w ← matAdd st0.weight zp
        some { st0 with weight := w, merged := true }
    else some { st0 with merged := true }
  else some st0

/-- `MergedLinear.forward` (src lines 445-454) on a 2-D input batch `x`,
dropout the identity: in the decomposed branch
`after_A = lora_A(x)`, `after_B = lora_B(after_A.transpose(-2,-1)).transpose(-2,-1)`
(the Conv1d module with its hardcoded `groups=2`), and
`result += zero_pad(after_B) * scaling`. -/
def MergedLinear.forward (st : MergedLinear) (x : Mat) : Option Mat :=
  if st.merged = true then
    some (fLinear x (transposeIf st.fan_in_fan_out st.weight) st.bias)
  else
    let base := fLinear x (transposeIf st.fan_in_fan_out st.weight) st.bias
    if 0 < st.r then
      match st.loraABind with
      | none => none
      | some (A, B, ind) => do
        let afterA := fLinear x A none
        let t ← conv1dModule B afterA.transpose.toT2
        let afterBt ← t.toMat2
        let zp ← zeroPad ind st.out_features st.padK afterBt.transpose
        matAdd base (zp.smul st.scaling)
    else some base

/-!  ## The facade's mode transitions (`LoraModel`, src lines 89-260)

`LoraModel` overrides neither `train` nor `eval`, so PyTorch's inherited
`nn.Module` behaviour is what runs: `module.train(mode)` sets the training
flag and calls `child.train(mode)` on every registered child, with dynamic
dispatch landing on the adapter layers' `train` override; `module.eval()` is
defined by PyTorch as `self.train(False)`.  The adapter layers of the wrapped
graph are modelled as a flat list (other modules have no merge state). -/

/-- Recursion of `nn.Module.train` over the adapter layers of the wrapped
graph (each child's overridden `Linear.train` runs; a raised exception
aborts the whole call). -/
def trainAll : List Linear → Option (List Linear)
  | [] => some []
  | l :: rest => do
    let l' ← l.train
    let rest' ← trainAll rest
    some (l' :: rest')

/-- `LoraModel.train(mode)` — inherited `nn.Module.train`: every adapter layer
undergoes its `train` override, whose merge bookkeeping ignores `mode`. -/
def LoraModel.trainMode (_mode : Bool) (layers : List Linear) : Option (List Linear) :=
  trainAll layers

/-- `LoraModel.eval()` — inherited `nn.Module.eval`, which PyTorch defines as
`self.train(False)`: the TRAIN→EVAL transition of the facade. -/
def LoraModel.evalMode (layers : List Linear) : Option (List Linear) :=
  LoraModel.trainMode false layers

/-!  ## The substitution engine (`LoraModel._find_and_replace`, src 123-163) -/

/-- The linear-like data exposed by a host module: `in_features`,
`out_features`, `weight`, optional `bias`. -/
structure LinBase where
  in_features : ℕ
  out_features : ℕ
  weight : Mat
  bias : Option (ℕ → ℚ)

/-- A module of the host graph, by runtime type: a plain `torch.nn.Linear`, a
`transformers.pytorch_utils.Conv1D` (weight stored `(in, out)`), or an already
injected adapter layer (`lora.Linear` / `lora.MergedLinear`, both subclasses
of `nn.Linear`). -/
inductive Module where
  | linear : LinBase → Module
  | conv1D : LinBase → Module
  | loraLinear : Linear → Module
  | loraMerged : MergedLinear → Module

/-- `isinstance(target, torch.nn.Linear)`: true for `nn.Linear` and its
subclasses `lora.Linear` / `lora.MergedLinear`; false for `Conv1D`. -/
def Module.isTorchLinear : Module → Bool
  | .linear _ => true
  | .conv1D _ => false
  | .loraLinear _ => true
  | .loraMerged _ => true

/-- The attributes `_find_and_replace` reads from the matched module. -/
def Module.base : Module → LinBase
  | .linear lb => lb
  | .conv1D lb => lb
  | .loraLinear l => ⟨l.in_features, l.out_features, l.weight, l.bias⟩
  | .loraMerged m => ⟨m.in_features, m.out_features, m.weight, m.bias⟩

/-- The configuration fields `_find_and_replace` consumes (src 124-133). -/
structure LoraConfig where
  r : ℕ
  lora_alpha : ℚ
  fan_in_fan_out : Bool
  merge_weights : Bool
  enable_lora : Option (List Bool)
  target_modules : List String

/-- Failures of the substitution pass. -/
inductive EngineError where
  /-- the matched module entered neither construction branch and no earlier
  iteration assigned `new_module`: `UnboundLocalError` at src line 151. -/
  | unboundLocalNewModule : EngineError
  /-- a `MergedLinear` constructor exception propagates out of the loop. -/
  | ctor : CtorError → EngineError
deriving DecidableEq

/-- Python `str.endswith`: a character-level suffix test. -/
def pyEndsWith (s t : String) : Bool := t.data.isSuffixOf s.data

/-- `any(key.endswith(target_key) for target_key in target_modules)` (src 133). -/
def keyMatches (cfg : LoraConfig) (key : String) : Bool :=
  cfg.target_modules.any fun t => pyEndsWith key t

/-- `LoraModel._replace_module` (src 159-163): graft `new_module` in place of
the old one and transplant the original `weight` (and `bias`, when present)
into it. -/
def replaceModuleTransplant (newM : Module) (old : LinBase) : Module :=
  match newM with
  | .linear lb =>
    .linear { lb with weight := old.weight
                      bias := if old.bias.isSome then old.bias else lb.bias }
  | .conv1D lb =>
    .conv1D { lb with weight := old.weight
                      bias := if old.bias.isSome then old.bias else lb.bias }
  | .loraLinear l =>
    .loraLinear { l with weight := old.weight
                         bias := if old.bias.isSome then old.bias else l.bias }
  | .loraMerged m =>
    .loraMerged { m with weight := old.weight
                         bias := if old.bias.isSome then old.bias else m.bias }

/-- The loop of `LoraModel._find_and_replace` (src 131-151) over the named
modules, with the Python local `new_module` carried across iterations: a
matched module for which neither construction branch fires falls through to
`_replace_module` with the *previous* iteration's `new_module`, or raises
`UnboundLocalError` when there was none.  `init key = (W0, A0, b0)` supplies
the random initial tensors of a freshly constructed layer at `key` (they are
overwritten by the transplant whenever the old module has the corresponding
tensor).  A raised exception aborts the whole pass. -/
def findAndReplaceAux (cfg : LoraConfig) (init : String → Mat × Mat × (ℕ → ℚ)) :
    List (String × Module) → Option Module → Except EngineError (List (String × Module))
  | [], _ => .ok []
  | (key, m) :: rest, lastNew =>
    if keyMatches cfg key then
      let old := m.base
      let hasBias := old.bias.isSome
      match cfg.enable_lora with
      | none =>
        if m.isTorchLinear then
          let nm := Module.loraLinear (Linear.init old.in_features old.out_features
            cfg.r cfg.lora_alpha cfg.fan_in_fan_out cfg.merge_weights (init key).1
            (if hasBias then some (init key).2.2 else none) (init key).2.1)
          match findAndReplaceAux cfg init rest (some nm) with
          | .error e => .error e
          | .ok rest' => .ok ((key, replaceModuleTransplant nm old) :: rest')
        else
          match lastNew with
          | none => .error .unboundLocalNewModule
          | some nm =>
            match findAndReplaceAux cfg init rest lastNew with
            | .error e => .error e
            | .ok rest' => .ok ((key, replaceModuleTransplant nm old) :: rest')
      | some el =>
        let dims : ℕ × ℕ × Bool :=
          match m with
          | .conv1D lb => (lb.weight.rows, lb.weight.cols, cfg.fan_in_fan_out)
          | _ => (old.in_features, old.out_features, false)
        match MergedLinear.init dims.1 dims.2.1 cfg.r cfg.lora_alpha el dims.2.2
            cfg.merge_weights (init key).1
            (if hasBias then some (init key).2.2 else none) (init key).2.1 with
        | .error e => .error (.ctor e)
        | .ok ml =>
          let nm := Module.loraMerged ml
          match findAndReplaceAux cfg init rest (some nm) with
          | .error e => .error e
          | .ok rest' => .ok ((key, replaceModuleTransplant nm old) :: rest')
    else
      match findAndReplaceAux cfg init rest lastNew with
      | .error e => .error e
      | .ok rest' => .ok ((key, m) :: rest')

/-- `LoraModel._find_and_replace` (src 123-151): run the loop with
`new_module` initially unbound. -/
def findAndReplace (cfg : LoraConfig) (init : String → Mat × Mat × (ℕ → ℚ))
    (graph : List (String × Module)) : Except EngineError (List (String × Module)) :=
  findAndReplaceAux cfg init graph none

/-!  ## Concrete instances used by the claim theorems -/

/-- A decomposed `lora.Linear` state with non-zero factor values: the state of
an initialised 1×1 layer (`r = 1`, `lora_alpha = 1`, `merge_weights = True`)
after training has updated `lora_A.weight`/`lora_B.weight` in place. -/
def sampleLinear : Linear :=
  { in_features := 1, out_features := 1, weight := ⟨1, 1, fun _ _ => 7⟩, bias := none,
    r := 1, lora_alpha := 1, fan_in_fan_out := false, merge_weights := true,
    loraAB := some (⟨1, 1, fun _ _ => 2⟩, ⟨1, 1, fun _ _ => 3⟩), merged := false }

/-- The merged counterpart of `sampleLinear` (weight 7 + 3·2·1 = 13). -/
def sampleMergedLinear : Linear :=
  { sampleLinear with weight := ⟨1, 1, fun _ _ => 13⟩, merged := true }

/-- The state of a `MergedLinear` built by `MergedLinear.init` with
`enable_lora = [true, false, true]` over `out_features = 9` and
`fan_in_fan_out = false`, after the trainable factors have been updated in
place to `A`, `B` (training mutates only `lora_A.weight`/`lora_B.weight`;
every other field is as the constructor left it). -/
def groupedTFT (inF : ℕ) (W0 : Mat) (b : Option (ℕ → ℚ)) (alpha : ℚ) (r : ℕ)
    (A B : Mat) : MergedLinear :=
  { in_features := inF, out_features := 9, weight := W0, bias := b,
    r := r, lora_alpha := alpha, enable_lora := [true, false, true],
    fan_in_fan_out := false, merge_weights := true,
    loraABind := some (A, B, loraIndOf [true, false, true] 9), merged := false }

/-- Engine configuration with `target_modules = ["q", "v"]` and `enable_lora`
absent (the Simple-variant path). -/
def cfgQV : LoraConfig := ⟨8, 16, false, false, none, ["q", "v"]⟩

/-!  ## Helper lemmas -/

theorem matAdd_eq_some {A B w : Mat} (h : matAdd A B = some w) :
    A.rows = B.rows ∧ A.cols = B.cols ∧
      w = ⟨A.rows, A.cols, fun i j => A.entry i j + B.entry i j⟩ := by
  unfold matAdd at h
  by_cases hd : A.rows = B.rows ∧ A.cols = B.cols
  · rw [if_pos hd] at h
    exact ⟨hd.1, hd.2, (Option.some.inj h).symm⟩
  · rw [if_neg hd] at h
    cases h

theorem matAdd_of_dims (A B : Mat) (hr : A.rows = B.rows) (hc : A.cols = B.cols) :
    matAdd A B = some ⟨A.rows, A.cols, fun i j => A.entry i j + B.entry i j⟩ := by
  unfold matAdd
  rw [if_pos ⟨hr, hc⟩]

theorem matSub_of_dims (A B : Mat) (hr : A.rows = B.rows) (hc : A.cols = B.cols) :
    matSub A B = some ⟨A.rows, A.cols, fun i j => A.entry i j - B.entry i j⟩ := by
  unfold matSub
  rw [if_pos ⟨hr, hc⟩]

/-- A layer whose `train` call succeeds with `merge_weights` set ends up
unmerged, whatever the mode: the only branch that could leave `merged = true`
requires `merge_weights ∧ merged` to fail. -/
theorem Linear.train_unmerges {l l' : Linear} (hw : l.merge_weights = true)
    (h : l.train = some l') : l'.merged = false := by
  obtain ⟨inF, outF, W, bia, r, al, fan, mw, ab, mg⟩ := l
  replace hw : mw = true := hw
  subst hw
  cases ab with
  | none => cases h
  | some AB =>
    obtain ⟨A, B⟩ := AB
    unfold Linear.train at h
    cases mg with
    | false =>
      simp at h
      subst h
      rfl
    | true =>
      simp at h
      split_ifs at h with hr
      · rw [Option.map_eq_some'] at h
        obtain ⟨w, hsub, hl'⟩ := h
        subst hl'
        rfl
      · obtain rfl := Option.some.inj h
        rfl

/-- `trainAll` leaves every layer unmerged when all layers have
`merge_weights` set. -/
theorem trainAll_unmerges {ls out : List Linear}
    (hw : ∀ l ∈ ls, l.merge_weights = true) (h : trainAll ls = some out) :
    ∀ l ∈ out, l.merged = false := by
  induction ls generalizing out with
  | nil =>
    rw [trainAll] at h
    obtain rfl := Option.some.inj h
    intro l hl
    cases hl
  | cons a as ih =>
    rw [trainAll] at h
    cases ha : a.train with
    | none => rw [ha] at h; cases h
    | some a' =>
      rw [ha] at h
      cases hrest : trainAll as with
      | none => rw [hrest] at h; cases h
      | some out' =>
        rw [hrest] at h
        obtain rfl := Option.some.inj h
        intro l hl
        rcases List.mem_cons.mp hl with rfl | hl
        · exact Linear.train_unmerges (hw a (List.mem_cons_self a as)) ha
        · exact ih (fun x hx => hw x (List.mem_cons_of_mem _ hx)) hrest l hl


theorem matSub_eq_some {A B w : Mat} (h : matSub A B = some w) :
    A.rows = B.rows ∧ A.cols = B.cols ∧
      w = ⟨A.rows, A.cols, fun i j => A.entry i j - B.entry i j⟩ := by
  unfold matSub at h
  by_cases hd : A.rows = B.rows ∧ A.cols = B.cols
  · rw [if_pos hd] at h
    exact ⟨hd.1, hd.2, (Option.some.inj h).symm⟩
  · rw [if_neg hd] at h
    cases h

/-- The fused-delta reconstruction of `MergedLinear.train`/`eval` always
fails: `lora_B.weight.data.unsqueeze(-1)` is 4-dimensional, and `F.conv1d`
accepts only a 3-dimensional weight. -/
theorem MergedLinear.deltaW_none (st : MergedLinear) (A B : Mat) :
    st.deltaW A B = none := rfl

/-- On a merged Simple-layer state (with `merge_weights` set, factors present
and compatible delta dimensions), `Linear.eval` is the identity: the inner
`self.train(False)` subtracts the delta and the merge branch adds the same
delta back, `W - Δ + Δ = W` in exact arithmetic. -/
theorem Linear.eval_merged_fixed (inF outF : ℕ) (V : Mat) (bia : Option (ℕ → ℚ))
    (r : ℕ) (al : ℚ) (fan : Bool) (A B : Mat) (hr : 0 < r)
    (hdr : V.rows = (deltaPlain fan (al / (r : ℚ)) A B).rows)
    (hdc : V.cols = (deltaPlain fan (al / (r : ℚ)) A B).cols) :
    Linear.eval ⟨inF, outF, V, bia, r, al, fan, true, some (A, B), true⟩ =
      some ⟨inF, outF, V, bia, r, al, fan, true, some (A, B), true⟩ := by
  unfold Linear.eval Linear.train
  simp [hr, Linear.deltaW, Linear.scaling]
  rw [matSub_of_dims V (deltaPlain fan (al / (r : ℚ)) A B) hdr hdc]
  simp [hr]
  rw [matAdd_of_dims
    ⟨V.rows, V.cols, fun i j => V.entry i j - (deltaPlain fan (al / (r : ℚ)) A B).entry i j⟩
    (deltaPlain fan (al / (r : ℚ)) A B) hdr hdc]
  have hfix : (⟨V.rows, V.cols, fun i j =>
      (V.entry i j - (deltaPlain fan (al / (r : ℚ)) A B).entry i j) +
        (deltaPlain fan (al / (r : ℚ)) A B).entry i j⟩ : Mat) = V :=
    Mat.ext_of rfl rfl (by funext i j; ring)
  rw [hfix]

/-- A successful `Linear.eval` yields a state on which `eval` is the
identity. -/
theorem Linear.eval_idem_simple_aux {st st₁ : Linear} (h : st.eval = some st₁) :
    st₁.eval = some st₁ := by
  obtain ⟨inF, outF, W, bia, r, al, fan, mw, ab, mg⟩ := st
  cases ab with
  | none => cases h
  | some AB =>
    obtain ⟨A, B⟩ := AB
    cases mw with
    | false =>
      unfold Linear.eval Linear.train at h
      simp at h
      subst h
      rfl
    | true =>
      by_cases hr : 0 < r
      · cases mg with
        | false =>
          unfold Linear.eval Linear.train at h
          simp [hr, Linear.deltaW, Linear.scaling] at h
          obtain ⟨w, hadd, hst₁⟩ := h
          obtain ⟨hdr, hdc, hwEq⟩ := matAdd_eq_some hadd
          subst hwEq
          subst hst₁
          exact Linear.eval_merged_fixed inF outF _ bia r al fan A B hr hdr hdc
        | true =>
          unfold Linear.eval Linear.train at h
          simp [hr, Linear.deltaW, Linear.scaling] at h
          cases hsub : matSub W (deltaPlain fan (al / (r : ℚ)) A B) with
          | none => rw [hsub] at h; simp at h
          | some w =>
            rw [hsub] at h
            simp [hr] at h
            obtain ⟨hdr, hdc, hwEq⟩ := matSub_eq_some hsub
            subst hwEq
            obtain ⟨w2, hadd, hst₁⟩ := h
            obtain ⟨hdr2, hdc2, hw2⟩ := matAdd_eq_some hadd
            subst hw2
            subst hst₁
            exact Linear.eval_merged_fixed inF outF _ bia r al fan A B hr hdr hdc
      · cases mg with
        | false =>
          unfold Linear.eval Linear.train at h
          simp [hr] at h
          subst h
          unfold Linear.eval Linear.train
          simp [hr]
        | true =>
          unfold Linear.eval Linear.train at h
          simp [hr] at h
          subst h
          unfold Linear.eval Linear.train
          simp [hr]

/-- With `merge_weights` set, a successful `Linear.eval` ends merged. -/
theorem Linear.eval_merges_simple_aux {st st₁ : Linear} (hw : st.merge_weights = true)
    (h : st.eval = some st₁) : st₁.merged = true := by
  obtain ⟨inF, outF, W, bia, r, al, fan, mw, ab, mg⟩ := st
  replace hw : mw = true := hw
  subst hw
  cases ab with
  | none => cases h
  | some AB =>
    obtain ⟨A, B⟩ := AB
    by_cases hr : 0 < r
    · cases mg with
      | false =>
        unfold Linear.eval Linear.train at h
        simp [hr, Linear.deltaW, Linear.scaling] at h
        obtain ⟨w, hadd, hst₁⟩ := h
        subst hst₁
        rfl
      | true =>
        unfold Linear.eval Linear.train at h
        simp [hr, Linear.deltaW, Linear.scaling] at h
        cases hsub : matSub W (deltaPlain fan (al / (r : ℚ)) A B) with
        | none => rw [hsub] at h; simp at h
        | some w =>
          rw [hsub] at h
          simp [hr] at h
          obtain ⟨w2, hadd, hst₁⟩ := h
          subst hst₁
          rfl
    · cases mg with
      | false =>
        unfold Linear.eval Linear.train at h
        simp [hr] at h
        subst h
        rfl
      | true =>
        unfold Linear.eval Linear.train at h
        simp [hr] at h
        subst h
        rfl

/-- A successful `MergedLinear.eval` yields a state on which `eval` is the
identity (success forces every branch that would reconstruct the fused delta
to be avoided, since that reconstruction always fails). -/
theorem MergedLinear.eval_idem_grouped_aux {st st₁ : MergedLinear} (h : st.eval = some st₁) :
    st₁.eval = some st₁ := by
  obtain ⟨inF, outF, W, bia, r, al, el, fan, mw, ab, mg⟩ := st
  cases ab with
  | none => cases h
  | some ABI =>
    obtain ⟨A, B, ind⟩ := ABI
    cases mw with
    | false =>
      unfold MergedLinear.eval MergedLinear.train at h
      simp at h
      subst h
      rfl
    | true =>
      by_cases hr : 0 < r
      · by_cases ha : true ∈ el
        · exfalso
          unfold MergedLinear.eval MergedLinear.train at h
          cases mg with
          | false => simp [hr, ha, MergedLinear.deltaW_none] at h
          | true => simp [hr, ha, MergedLinear.deltaW_none] at h
        · cases mg with
          | false =>
            unfold MergedLinear.eval MergedLinear.train at h
            simp [hr, ha] at h
            subst h
            unfold MergedLinear.eval MergedLinear.train
            simp [hr, ha]
          | true =>
            unfold MergedLinear.eval MergedLinear.train at h
            simp [hr, ha] at h
            subst h
            unfold MergedLinear.eval MergedLinear.train
            simp [hr, ha]
      · cases mg with
        | false =>
          unfold MergedLinear.eval MergedLinear.train at h
          simp [hr] at h
          subst h
          unfold MergedLinear.eval MergedLinear.train
          simp [hr]
        | true =>
          unfold MergedLinear.eval MergedLinear.train at h
          simp [hr] at h
          subst h
          unfold MergedLinear.eval MergedLinear.train
          simp [hr]

/-- With `merge_weights` set, a successful `MergedLinear.eval` ends merged. -/
theorem MergedLinear.eval_merges_grouped_aux {st st₁ : MergedLinear}
    (hw : st.merge_weights = true) (h : st.eval = some st₁) : st₁.merged = true := by
  obtain ⟨inF, outF, W, bia, r, al, el, fan, mw, ab, mg⟩ := st
  replace hw : mw = true := hw
  subst hw
  cases ab with
  | none => cases h
  | some ABI =>
    obtain ⟨A, B, ind⟩ := ABI
    by_cases hr : 0 < r
    · by_cases ha : true ∈ el
      · exfalso
        unfold MergedLinear.eval MergedLinear.train at h
        cases mg with
        | false => simp [hr, ha, MergedLinear.deltaW_none] at h
        | true => simp [hr, ha, MergedLinear.deltaW_none] at h
      · cases mg with
        | false =>
          unfold MergedLinear.eval MergedLinear.train at h
          simp [hr, ha] at h
          subst h
          rfl
        | true =>
          unfold MergedLinear.eval MergedLinear.train at h
          simp [hr, ha] at h
          subst h
          rfl
    · cases mg with
      | false =>
        unfold MergedLinear.eval MergedLinear.train at h
        simp [hr] at h
        subst h
        rfl
      | true =>
        unfold MergedLinear.eval MergedLinear.train at h
        simp [hr] at h
        subst h
        rfl

/-- Auxiliary for C10: with `enable_lora` absent, a prefix of non-matching
modules followed by a matched module that is not a `torch.nn.Linear` makes
the loop reach `_replace_module` with `new_module` never assigned. -/
theorem findAndReplaceAux_unbound (cfg : LoraConfig) (hc : cfg.enable_lora = none)
    (init : String → Mat × Mat × (ℕ → ℚ)) (pre : List (String × Module))
    (hpre : ∀ p ∈ pre, keyMatches cfg p.1 = false)
    (key : String) (hk : keyMatches cfg key = true) (lb : LinBase)
    (rest : List (String × Module)) :
    findAndReplaceAux cfg init (pre ++ (key, Module.conv1D lb) :: rest) none =
      .error .unboundLocalNewModule := by
  induction pre with
  | nil =>
    rw [List.nil_append, findAndReplaceAux]
    simp [hk, hc, Module.isTorchLinear]
  | cons p pre ih =>
    obtain ⟨k0, m0⟩ := p
    have hp : keyMatches cfg k0 = false := hpre (k0, m0) (List.mem_cons_self _ _)
    rw [List.cons_append, findAndReplaceAux]
    simp only [hp, Bool.false_eq_true, if_false]
    rw [ih fun q hq => hpre q (List.mem_cons_of_mem _ hq)]

/-- Counting the `True` positions of `lora_ind`: over `len(enable_lora) * q`
output positions, each enabled group contributes a partition of size `q`. -/
theorem loraIndOf_count (el : List Bool) (q : ℕ) (hq : 0 < q) :
    (loraIndOf el (el.length * q)).count true = q * el.count true := by
  induction el with
  | nil => simp [loraIndOf]
  | cons b bs ih =>
    have hlen : ((b :: bs).length * q) / (b :: bs).length = q :=
      Nat.mul_div_cancel_left q (Nat.succ_pos _)
    unfold loraIndOf
    rw [hlen]
    have hsplit : (b :: bs).length * q = q + bs.length * q := by
      simp [List.length_cons, Nat.succ_mul, Nat.add_comm]
    rw [hsplit, List.range_add, List.map_append, List.count_append]
    have h1 : ((List.range q).map fun i => (b :: bs).getD (i / q) false) =
        List.replicate q b := by
      rw [show (List.replicate q b) = (List.range q).map fun _ => b by
        simp [List.map_const', List.length_range]]
      apply List.map_congr_left
      intro i hi
      rw [List.mem_range] at hi
      rw [Nat.div_eq_of_lt hi]
      rfl
    have h2 : (((List.range (bs.length * q)).map fun x => q + x).map
        fun i => (b :: bs).getD (i / q) false) =
        (List.range (bs.length * q)).map fun i => bs.getD (i / q) false := by
      rw [List.map_map]
      apply List.map_congr_left
      intro i hi
      show (b :: bs).getD ((q + i) / q) false = bs.getD (i / q) false
      rw [Nat.add_comm q i, Nat.add_div_right i hq]
      rfl
    rw [h1, h2]
    have h3 : ((List.range (bs.length * q)).map fun i => bs.getD (i / q) false).count true
        = q * bs.count true := by
      cases bs with
      | nil => simp
      | cons c cs =>
        have hlen2 : ((c :: cs).length * q) / (c :: cs).length = q :=
          Nat.mul_div_cancel_left q (Nat.succ_pos _)
        unfold loraIndOf at ih
        rw [hlen2] at ih
        exact ih
    rw [h3, List.count_replicate, List.count_cons]
    cases b
    · simp
    · simp [Nat.mul_succ, Nat.add_comm]


/-- Adding a zero tensor of matching shape is the identity. -/
theorem matAdd_zero_entries (P Q : Mat) (hr : P.rows = Q.rows) (hc : P.cols = Q.cols)
    (hz : ∀ i j, Q.entry i j = 0) : matAdd P Q = some P := by
  rw [matAdd_of_dims P Q hr hc]
  refine congrArg some (Mat.ext_of rfl rfl ?_)
  funext i j
  simp [hz]

/-- Zero-init identity for the Simple layer. -/
theorem C3_simple_aux (inF outF r : ℕ) (alpha : ℚ) (fan mergeW : Bool)
    (W0 : Mat) (b : Option (ℕ → ℚ)) (A0 : Mat) (x : Mat)
    (hr : 0 < r) (hW : W0.rows = outF) :
    (Linear.init inF outF r alpha fan mergeW W0 b A0).forward x =
      some (fLinear x (transposeIf fan (Linear.init inF outF r alpha fan mergeW W0 b A0).weight) b) := by
  cases fan
  · unfold Linear.init Linear.forward
    simp [hr]
    apply matAdd_zero_entries
    · rfl
    · exact hW
    · intro i j
      simp [Mat.smul, fLinear, zeroMat, Linear.scaling]
  · unfold Linear.init Linear.forward
    simp [hr]
    apply matAdd_zero_entries
    · rfl
    · exact hW
    · intro i j
      simp [Mat.smul, fLinear, zeroMat, Linear.scaling]


/-- Shape and entries of a valid unbatched `F.conv1d` call. -/
theorem fConv1d_2d_eq (x w : Tensor) (g cin l cout cing k : ℕ)
    (hx : x.shape = [cin, l]) (hw : w.shape = [cout, cing, k])
    (hg : 0 < g) (hc : cin = cing * g) (hco : cout % g = 0) (hk : 0 < k) (hkl : k ≤ l) :
    ∃ t, fConv1d x w g = some t ∧ t.shape = [cout, l - k + 1] ∧
      ∀ o p, t.entry [o, p] = ∑ j ∈ Finset.range cing, ∑ tt ∈ Finset.range k,
        w.entry [o, j, tt] * x.entry [o / (cout / g) * cing + j, p + tt] := by
  obtain ⟨xs, xe⟩ := x
  obtain ⟨ws, we⟩ := w
  replace hx : xs = [cin, l] := hx
  replace hw : ws = [cout, cing, k] := hw
  subst hx
  subst hw
  simp only [fConv1d]
  rw [if_pos ⟨hg, hc, hco, hk, hkl⟩]
  exact ⟨_, rfl, rfl, fun o p => rfl⟩

/-- Shape and entries of a valid `zero_pad` call on a 2-D argument. -/
theorem zeroPad_eq (ind : List Bool) (outF k : ℕ) (x : Mat) (hk : 0 < k)
    (h1 : x.rows * x.cols % k = 0) (h2 : x.rows * x.cols / k = x.rows)
    (h3 : ind.count true = k) :
    ∃ zp, zeroPad ind outF k x = some zp ∧ zp.rows = x.rows ∧ zp.cols = outF ∧
      ∀ i j, zp.entry i j = (if ind.getD j false then
        x.entry ((i * k + (ind.take j).count true) / x.cols)
          ((i * k + (ind.take j).count true) % x.cols) else 0) := by
  unfold zeroPad
  rw [if_pos ⟨hk, h1, h2, h3⟩]
  exact ⟨_, rfl, rfl, rfl, fun i j => rfl⟩

/-- The row count survives transposing twice with the same flag. -/
theorem transposeIf_twice_rows (fan : Bool) (M : Mat) :
    (transposeIf fan (transposeIf fan M)).rows = M.rows := by
  cases fan <;> rfl

/-- Zero-init identity for the Grouped layer. -/
theorem C3_grouped_aux (inF outF r : ℕ) (alpha : ℚ) (el : List Bool)
    (fan mergeW : Bool) (W0 : Mat) (b : Option (ℕ → ℚ)) (A0 : Mat)
    (m : MergedLinear) (x : Mat)
    (hok : MergedLinear.init inF outF r alpha el fan mergeW W0 b A0 = .ok m)
    (hr : 0 < r) (hany : el.any id = true) (houtF : 0 < outF)
    (hW : W0.rows = outF) (hA : A0.rows = r * el.count true) (hx : 0 < x.rows) :
    m.forward x = some (fLinear x (transposeIf fan m.weight) m.bias) := by
  have h1 : el.length ≠ 0 := by
    cases el with
    | nil => cases hany
    | cons c cs => simp
  unfold MergedLinear.init at hok
  rw [if_neg h1] at hok
  by_cases h2 : outF % el.length ≠ 0
  · rw [if_pos h2] at hok; cases hok
  · rw [if_neg h2, if_pos ⟨hr, hany⟩] at hok
    by_cases h4 : (r * el.count true) % 2 = 0 ∧ (outF / el.length * el.count true) % 2 = 0
    case neg => rw [if_neg h4] at hok; cases hok
    case pos =>
    rw [if_pos h4] at hok
    obtain rfl := Except.ok.inj hok
    have hdvd : el.length ∣ outF := Nat.dvd_of_mod_eq_zero (not_not.mp h2)
    have hlenpos : 0 < el.length := Nat.pos_of_ne_zero h1
    have hqpos : 0 < outF / el.length := Nat.div_pos (Nat.le_of_dvd houtF hdvd) hlenpos
    have hmem : true ∈ el := by
      obtain ⟨a, ha, hid⟩ := List.any_eq_true.mp hany
      simp only [id] at hid
      subst hid
      exact ha
    have hspos : 0 < el.count true := List.count_pos_iff.mpr hmem
    have houtA : 0 < outF / el.length * el.count true := Nat.mul_pos hqpos hspos
    have hcing : r * el.count true / 2 * 2 = r * el.count true :=
      Nat.div_mul_cancel (Nat.dvd_of_mod_eq_zero h4.1)
    have hout_eq : el.length * (outF / el.length) = outF := Nat.mul_div_cancel' hdvd
    have hcount : (loraIndOf el outF).count true = outF / el.length * el.count true := by
      conv_lhs => rw [← hout_eq]
      exact loraIndOf_count el (outF / el.length) hqpos
    obtain ⟨t, hconv, htsh, htent⟩ := fConv1d_2d_eq
      (fLinear x A0 none).transpose.toT2
      (convWeight3 (zeroMat (outF / el.length * el.count true) (r * el.count true / 2))) 2
      A0.rows x.rows (outF / el.length * el.count true) (r * el.count true / 2) 1
      rfl rfl (by norm_num) (hA.trans hcing.symm) h4.2 (by norm_num) hx
    obtain ⟨tsh, tent⟩ := t
    replace htsh : tsh = [outF / el.length * el.count true, x.rows - 1 + 1] := htsh
    subst htsh
    have htent0 : ∀ o p, tent [o, p] = 0 := by
      intro o p
      have htent2 : tent [o, p] = ∑ j ∈ Finset.range (r * el.count true / 2),
          ∑ tt ∈ Finset.range 1,
            (convWeight3 (zeroMat (outF / el.length * el.count true)
                (r * el.count true / 2))).entry [o, j, tt] *
              (fLinear x A0 none).transpose.toT2.entry
                [o / (outF / el.length * el.count true / 2) * (r * el.count true / 2) + j,
                  p + tt] := htent o p
      rw [htent2]
      simp [convWeight3, zeroMat]
    unfold MergedLinear.forward
    simp [hr]
    rw [show conv1dModule
        (zeroMat (outF / el.length * el.count true) (r * el.count true / 2))
        (fLinear x A0 none).transpose.toT2 =
        some ⟨[outF / el.length * el.count true, x.rows - 1 + 1], tent⟩ from hconv]
    simp only [Option.some_bind, Tensor.toMat2, MergedLinear.padK]
    obtain ⟨zp, hzp, hzr, hzc, hzent⟩ := zeroPad_eq (loraIndOf el outF) outF
      (outF / el.length * el.count true)
      (⟨outF / el.length * el.count true, x.rows - 1 + 1, fun i j => tent [i, j]⟩ : Mat).transpose
      houtA (Nat.mul_mod_left _ _) (Nat.mul_div_cancel _ houtA) hcount
    rw [hzp]
    simp only [Option.some_bind]
    refine matAdd_zero_entries _ _ ?_ ?_ ?_
    · exact (Nat.sub_add_cancel hx).symm.trans hzr.symm
    · exact (transposeIf_twice_rows fan W0).trans (hW.trans hzc.symm)
    · intro i j
      have hz0 : zp.entry i j = 0 := by
        rw [hzent i j]
        split
        · exact htent0 _ _
        · rfl
      show _ * zp.entry i j = (0 : ℚ)
      rw [hz0, mul_zero]

/-- Inversion of a successful `zero_pad` call. -/
theorem zeroPad_eq_some {ind : List Bool} {outF k : ℕ} {x zp : Mat}
    (h : zeroPad ind outF k x = some zp) :
    zp = ⟨x.rows, outF, fun i j => if ind.getD j false then
      x.entry ((i * k + (ind.take j).count true) / x.cols)
        ((i * k + (ind.take j).count true) % x.cols) else 0⟩ := by
  unfold zeroPad at h
  by_cases hc : 0 < k ∧ x.rows * x.cols % k = 0 ∧ x.rows * x.cols / k = x.rows ∧
      ind.count true = k
  · rw [if_pos hc] at h
    exact (Option.some.inj h).symm
  · rw [if_neg hc] at h
    cases h


/-!  ## The claims -/

/-- C1 (code_bug): for every adapter layer with `r > 0`, the merged-state
forward should be numerically identical to the unmerged one, the grouped
reconstruction of the fused delta agreeing with the decomposed forward path
for every valid group mask.  The code violates this: at this concretely
constructed grouped layer (`enable_lora = [true, false, true]`,
`out_features = 9`, `r = 1`, `merge_weights` set) the decomposed forward is
defined, but the eval-transition fails — the merge passes
`lora_B.weight.data.unsqueeze(-1)`, a 4-D tensor (the `nn.Conv1d` weight is
already 3-D), to `F.conv1d` — so no merged forward exists to compare; the
constructor moreover hardcodes `groups=2` for `lora_B` while the merge uses
`groups=sum(enable_lora)`. -/
theorem C1_grouped_merge_transition_fails :
    ∃ m : MergedLinear,
      MergedLinear.init 2 9 1 1 [true, false, true] false true (zeroMat 9 2) none
          (⟨2, 2, fun _ _ => 1⟩ : Mat) = .ok m ∧
      (m.forward ⟨1, 2, fun _ _ => 1⟩).isSome = true ∧
      m.eval = none :=
  ⟨_, rfl, rfl, rfl⟩

/-- C6 (code_bug): a `lora.Linear` built with `r = 0` does compute the plain
base forward on every input, but its mode transitions are not failure-free
no-ops: `Linear.train` and `Linear.eval` access the non-existent `lora_A`
attribute and raise `AttributeError` (modelled: `none`). -/
theorem C6_r0_transitions_fail_forward_passthrough (inF outF : ℕ) (alpha : ℚ)
    (fan mergeW : Bool) (W0 : Mat) (b : Option (ℕ → ℚ)) (A0 : Mat) (x : Mat) :
    (Linear.init inF outF 0 alpha fan mergeW W0 b A0).train = none ∧
    (Linear.init inF outF 0 alpha fan mergeW W0 b A0).eval = none ∧
    (Linear.init inF outF 0 alpha fan mergeW W0 b A0).forward x =
      some (fLinear x
        (transposeIf fan (Linear.init inF outF 0 alpha fan mergeW W0 b A0).weight) b) :=
  ⟨rfl, rfl, rfl⟩

/-- C9 (amended): construction of a `MergedLinear` fails exactly when the
`enable_lora` list is empty (`ZeroDivisionError`), or its length does not
divide `out_features` (the explicit `ValueError` guard), or — `r > 0` with an
active group — the hardcoded two-group `nn.Conv1d` rejects its channel counts
(`2 ∤ r·sum(enable_lora)` or `2 ∤ (out_features/len)·sum(enable_lora)`); in
each case synchronously at construction. -/
theorem C9_construction_failure_characterization (inF outF r : ℕ) (alpha : ℚ)
    (el : List Bool) (fan mergeW : Bool) (W0 : Mat) (b : Option (ℕ → ℚ)) (A0 : Mat) :
    (∃ e, MergedLinear.init inF outF r alpha el fan mergeW W0 b A0 = .error e) ↔
      (el.length = 0 ∨ outF % el.length ≠ 0 ∨
        (0 < r ∧ el.any id = true ∧
          ((r * el.count true) % 2 ≠ 0 ∨
            (outF / el.length * el.count true) % 2 ≠ 0))) := by
  unfold MergedLinear.init
  split_ifs with h1 h2 h3 h4
  · exact iff_of_true ⟨_, rfl⟩ (Or.inl h1)
  · exact iff_of_true ⟨_, rfl⟩ (Or.inr (Or.inl h2))
  · refine iff_of_false ?_ ?_
    · rintro ⟨e, he⟩; cases he
    · rintro (h | h | ⟨-, -, h | h⟩)
      · exact h1 h
      · exact h2 h
      · exact h h4.1
      · exact h h4.2
  · refine iff_of_true ⟨_, rfl⟩ (Or.inr (Or.inr ⟨h3.1, h3.2, ?_⟩))
    rcases not_and_or.mp h4 with h | h
    · exact Or.inl h
    · exact Or.inr h
  · refine iff_of_false ?_ ?_
    · rintro ⟨e, he⟩; cases he
    · rintro (h | h | ⟨hr', hany', -⟩)
      · exact h1 h
      · exact h2 h
      · exact h3 ⟨hr', hany'⟩

/-- C9 counterexample: `out_features = 9` is divisible by the mask length 3,
yet construction with `enable_lora = [true, false, false]` and `r = 1` fails —
the hardcoded `groups=2` Conv1d rejects `in_channels = r·sum = 1` — refuting
"fails exactly when `out_features` is not divisible by `len(group_mask)`". -/
theorem C9_counterexample_divisible_but_fails :
    ([true, false, false] : List Bool).length = 3 ∧ 9 % 3 = 0 ∧
    MergedLinear.init 1 9 1 1 [true, false, false] false true (zeroMat 9 1) none
      (zeroMat 1 1) = .error .convGroups :=
  ⟨rfl, rfl, rfl⟩

/-- C10: during substitution with `enable_lora` absent, a name-matched module
whose type is not a plain `torch.nn.Linear` (here: a `Conv1D`) is not skipped:
the replacement step is reached with no adapter layer constructed and the pass
raises an unhandled `UnboundLocalError` instead of ignoring the module. -/
theorem C10_matched_nonlinear_raises (cfg : LoraConfig) (hc : cfg.enable_lora = none)
    (init : String → Mat × Mat × (ℕ → ℚ)) (pre : List (String × Module))
    (hpre : ∀ p ∈ pre, keyMatches cfg p.1 = false)
    (key : String) (hk : keyMatches cfg key = true) (lb : LinBase)
    (rest : List (String × Module)) :
    findAndReplace cfg init (pre ++ (key, Module.conv1D lb) :: rest) =
      .error .unboundLocalNewModule :=
  findAndReplaceAux_unbound cfg hc init pre hpre key hk lb rest

/-- C10 witness: a concrete graph whose only match, `x.q`, is a `Conv1D`. -/
theorem C10_matched_nonlinear_raises_witness :
    findAndReplace ⟨8, 16, false, false, none, ["q"]⟩
      (fun _ => (zeroMat 1 1, zeroMat 1 1, fun _ => 0))
      [("x.k", Module.linear ⟨1, 1, zeroMat 1 1, none⟩),
       ("x.q", Module.conv1D ⟨4, 4, zeroMat 4 4, none⟩)] =
      .error .unboundLocalNewModule :=
  C10_matched_nonlinear_raises ⟨8, 16, false, false, none, ["q"]⟩ rfl
    (fun _ => (zeroMat 1 1, zeroMat 1 1, fun _ => 0))
    [("x.k", Module.linear ⟨1, 1, zeroMat 1 1, none⟩)]
    (by
      intro p hp
      rw [List.mem_singleton] at hp
      subst hp
      rfl)
    "x.q" rfl ⟨4, 4, zeroMat 4 4, none⟩ []

/-- C5 (amended): `LoraModel` overrides neither `train` nor `eval`, and
PyTorch's `nn.Module.eval` is `self.train(False)`, so both facade transitions
run every adapter layer's `train` override and never the layers' `eval`
(merge): with `merge_weights` set, after either facade transition every
adapter layer is unmerged. -/
theorem C5_facade_transitions_unmerge (mode : Bool) (ls out : List Linear)
    (hw : ∀ l ∈ ls, l.merge_weights = true)
    (h : LoraModel.trainMode mode ls = some out) :
    LoraModel.evalMode ls = LoraModel.trainMode mode ls ∧
      ∀ l ∈ out, l.merged = false :=
  ⟨rfl, trainAll_unmerges hw h⟩

/-- C5 witness: the facade transition applied to one merged adapter layer. -/
theorem C5_facade_transitions_unmerge_witness :
    ∃ out, LoraModel.trainMode false [sampleMergedLinear] = some out ∧
      (LoraModel.evalMode [sampleMergedLinear] =
          LoraModel.trainMode false [sampleMergedLinear] ∧
        ∀ l ∈ out, l.merged = false) := by
  obtain ⟨out, h⟩ : ∃ o, LoraModel.trainMode false [sampleMergedLinear] = some o :=
    ⟨_, rfl⟩
  exact ⟨out, h, C5_facade_transitions_unmerge false [sampleMergedLinear] out
    (by
      intro l hl
      rw [List.mem_singleton] at hl
      subst hl
      rfl) h⟩

/-- C5 counterexample: a decomposed adapter layer with `merge_weights` set
stays unmerged after the facade's TRAIN→EVAL transition, although the layer's
own eval-transition would merge it — the facade never invokes
`enter_eval_mode`, refuting "leaving each such layer in the merged=true
state". -/
theorem C5_counterexample_facade_eval :
    (∃ out, LoraModel.evalMode [sampleLinear] = some out ∧
        out.map (fun l => l.merged) = [false]) ∧
      ∃ s, sampleLinear.eval = some s ∧ s.merged = true :=
  ⟨⟨_, rfl, rfl⟩, ⟨_, rfl, rfl⟩⟩

/-- C8: on a graph with modules `encoder.q`, `encoder.k`, `encoder.v`,
`decoder.out` and `target_modules = ["q", "v"]`, the engine replaces exactly
`encoder.q` and `encoder.v` with adapter layers carrying the original weight
and bias tensors, leaving `encoder.k` and `decoder.out` untouched. -/
theorem C8_substitution_coverage (wq wk wv wo : Mat) (bq bk bv bo : ℕ → ℚ)
    (init : String → Mat × Mat × (ℕ → ℚ)) :
    ∃ aq av : Linear,
      findAndReplace cfgQV init
        [("encoder.q", Module.linear ⟨4, 4, wq, some bq⟩),
         ("encoder.k", Module.linear ⟨4, 4, wk, some bk⟩),
         ("encoder.v", Module.linear ⟨4, 4, wv, some bv⟩),
         ("decoder.out", Module.linear ⟨4, 4, wo, some bo⟩)] =
        .ok [("encoder.q", Module.loraLinear aq),
             ("encoder.k", Module.linear ⟨4, 4, wk, some bk⟩),
             ("encoder.v", Module.loraLinear av),
             ("decoder.out", Module.linear ⟨4, 4, wo, some bo⟩)] ∧
      aq.weight = wq ∧ aq.bias = some bq ∧ aq.r = 8 ∧ aq.merged = false ∧
      av.weight = wv ∧ av.bias = some bv ∧ av.r = 8 :=
  ⟨_, _, rfl, rfl, rfl, rfl, rfl, rfl, rfl, rfl⟩


/-- C2 (amended): for a Simple adapter layer with `r > 0`, `merge_weights`
set, in decomposed mode, whenever the eval-transition (merge) succeeds, the
immediately following train-transition (unmerge) succeeds and subtracts
exactly the layout-transposed scaled delta the merge added, restoring the
whole state — BaseWeight included — so the forward output is unchanged for
every input.  (For Grouped layers the eval-transition itself always fails;
see the counterexample.) -/
theorem C2_simple_round_trip_restores (st st₁ : Linear) (x : Mat)
    (hm : st.merged = false) (hw : st.merge_weights = true) (hr : 0 < st.r)
    (h : st.eval = some st₁) :
    ∃ st₂, st₁.train = some st₂ ∧ st₂ = st ∧ st₂.forward x = st.forward x := by
  obtain ⟨inF, outF, W, bia, r, al, fan, mw, ab, mg⟩ := st
  replace hm : mg = false := hm
  replace hw : mw = true := hw
  replace hr : 0 < r := hr
  subst hm
  subst hw
  cases ab with
  | none => cases h
  | some AB =>
    obtain ⟨A, B⟩ := AB
    unfold Linear.eval Linear.train at h
    simp [hr, Linear.deltaW, Linear.scaling] at h
    obtain ⟨w, hadd, hst₁⟩ := h
    obtain ⟨hdr, hdc, hwEq⟩ := matAdd_eq_some hadd
    subst hwEq
    subst hst₁
    have hWr : (⟨W.rows, W.cols, fun i j =>
        (W.entry i j + (deltaPlain fan (al / (r : ℚ)) A B).entry i j) -
          (deltaPlain fan (al / (r : ℚ)) A B).entry i j⟩ : Mat) = W :=
      Mat.ext_of rfl rfl (by funext i j; ring)
    refine ⟨⟨inF, outF, W, bia, r, al, fan, true, some (A, B), false⟩, ?_, rfl, rfl⟩
    unfold Linear.train
    simp [hr, Linear.deltaW, Linear.scaling]
    have hs := matSub_of_dims
      ⟨W.rows, W.cols, fun i j =>
        W.entry i j + (deltaPlain fan (al / (r : ℚ)) A B).entry i j⟩
      (deltaPlain fan (al / (r : ℚ)) A B) hdr hdc
    exact hs.trans (congrArg some hWr)

/-- C2 witness: the round trip at a concrete 1×1 layer with non-zero
factors. -/
theorem C2_simple_round_trip_witness :
    ∃ s₁ s₂, sampleLinear.eval = some s₁ ∧ s₁.train = some s₂ ∧
      s₂.forward ⟨1, 1, fun _ _ => 1⟩ = sampleLinear.forward ⟨1, 1, fun _ _ => 1⟩ := by
  obtain ⟨s₁, h⟩ : ∃ s, sampleLinear.eval = some s := ⟨_, rfl⟩
  obtain ⟨s₂, h2, -, h3⟩ :=
    C2_simple_round_trip_restores sampleLinear s₁ ⟨1, 1, fun _ _ => 1⟩ rfl rfl Nat.one_pos h
  exact ⟨s₁, s₂, h, h2, h3⟩

/-- C2 counterexample: a Grouped layer with `r > 0` and `merge_weights` set
(`enable_lora = [true, true]`, `out_features = 4`) on which the decomposed
forward is defined, but merge-then-unmerge cannot be performed at all: the
eval-transition fails reconstructing the fused delta, so the claimed round
trip does not exist for every adapter layer. -/
theorem C2_counterexample_grouped_round_trip :
    ∃ m : MergedLinear,
      MergedLinear.init 3 4 1 1 [true, true] false true (zeroMat 4 3) none
          (⟨2, 3, fun _ _ => 1⟩ : Mat) = .ok m ∧
      (m.forward ⟨1, 3, fun _ _ => 1⟩).isSome = true ∧
      m.eval >>= MergedLinear.train = none :=
  ⟨_, rfl, rfl, rfl⟩

/-- C7: for every adapter layer (Simple or Grouped) with `merge_weights` set,
when the eval-transition succeeds it leaves the layer merged, and an
immediately repeated eval-transition succeeds and leaves the entire state —
BaseWeight included — exactly as after the first call (exact arithmetic; the
second call is not literally guarded out by `not merged`: `nn.Module.eval`
is `self.train(False)`, which first unmerges, and the merge branch re-adds
the identical delta, `W - Δ + Δ = W`). -/
theorem C7_eval_idempotent :
    (∀ st st₁ : Linear, st.merge_weights = true → st.eval = some st₁ →
        st₁.merged = true ∧ st₁.eval = some st₁) ∧
    (∀ st st₁ : MergedLinear, st.merge_weights = true → st.eval = some st₁ →
        st₁.merged = true ∧ st₁.eval = some st₁) :=
  ⟨fun _ _ hw h => ⟨Linear.eval_merges_simple_aux hw h, Linear.eval_idem_simple_aux h⟩,
   fun _ _ hw h => ⟨MergedLinear.eval_merges_grouped_aux hw h, MergedLinear.eval_idem_grouped_aux h⟩⟩

/-- C7 witness: double eval at a concrete decomposed 1×1 layer. -/
theorem C7_eval_idempotent_witness :
    ∃ s₁, sampleLinear.eval = some s₁ ∧ s₁.merged = true ∧ s₁.eval = some s₁ := by
  obtain ⟨s₁, h⟩ : ∃ s, sampleLinear.eval = some s := ⟨_, rfl⟩
  obtain ⟨h1, h2⟩ := C7_eval_idempotent.1 sampleLinear s₁ rfl h
  exact ⟨s₁, h, h1, h2⟩


/-- C3: immediately after construction (`lora_B` zero-initialised, `lora_A`
random), the forward output of an adapter layer equals the plain base-layer
forward — `F.linear` on the stored BaseWeight (with the layout transpose) plus
bias — for every input, because the low-rank contribution is exactly zero.
Simple layers: every `r > 0`.  Grouped layers: every successfully constructed
configuration with `r > 0` and at least one enabled group (with no enabled
group the factors are never created and the decomposed forward would raise
`AttributeError` instead; see C6 for the analogous Simple-layer gap). -/
theorem C3_zero_init_identity :
    (∀ (inF outF r : ℕ) (alpha : ℚ) (fan mergeW : Bool) (W0 : Mat)
        (b : Option (ℕ → ℚ)) (A0 : Mat) (x : Mat), 0 < r → W0.rows = outF →
        (Linear.init inF outF r alpha fan mergeW W0 b A0).forward x =
          some (fLinear x
            (transposeIf fan (Linear.init inF outF r alpha fan mergeW W0 b A0).weight) b)) ∧
    (∀ (inF outF r : ℕ) (alpha : ℚ) (el : List Bool) (fan mergeW : Bool) (W0 : Mat)
        (b : Option (ℕ → ℚ)) (A0 : Mat) (m : MergedLinear) (x : Mat),
        MergedLinear.init inF outF r alpha el fan mergeW W0 b A0 = .ok m →
        0 < r → el.any id = true → 0 < outF → W0.rows = outF →
        A0.rows = r * el.count true → 0 < x.rows →
        m.forward x = some (fLinear x (transposeIf fan m.weight) m.bias)) :=
  ⟨fun inF outF r alpha fan mergeW W0 b A0 x hr hW =>
      C3_simple_aux inF outF r alpha fan mergeW W0 b A0 x hr hW,
    fun inF outF r alpha el fan mergeW W0 b A0 m x hok hr hany ho hW hA hx =>
      C3_grouped_aux inF outF r alpha el fan mergeW W0 b A0 m x hok hr hany ho hW hA hx⟩

/-- C3 witness: a freshly constructed 2→3 Simple layer and a freshly
constructed grouped layer (`enable_lora = [true, false, true]`,
`out_features = 9`), each evaluated on a concrete input. -/
theorem C3_zero_init_identity_witness :
    ((Linear.init 2 3 1 1 false true (zeroMat 3 2) none (zeroMat 1 2)).forward
        ⟨1, 2, fun _ _ => 1⟩ =
      some (fLinear ⟨1, 2, fun _ _ => 1⟩
        (transposeIf false
          (Linear.init 2 3 1 1 false true (zeroMat 3 2) none (zeroMat 1 2)).weight)
        none)) ∧
    ∃ m, MergedLinear.init 2 9 1 1 [true, false, true] false true (zeroMat 9 2) none
        (zeroMat 2 2) = .ok m ∧
      m.forward ⟨1, 2, fun _ _ => 1⟩ =
        some (fLinear ⟨1, 2, fun _ _ => 1⟩ (transposeIf false m.weight) m.bias) := by
  constructor
  · exact C3_zero_init_identity.1 2 3 1 1 false true (zeroMat 3 2) none (zeroMat 1 2)
      ⟨1, 2, fun _ _ => 1⟩ Nat.one_pos rfl
  · obtain ⟨m, hm⟩ : ∃ m, MergedLinear.init 2 9 1 1 [true, false, true] false true
        (zeroMat 9 2) none (zeroMat 2 2) = .ok m := ⟨_, rfl⟩
    exact ⟨m, hm, C3_zero_init_identity.2 2 9 1 1 [true, false, true] false true
      (zeroMat 9 2) none (zeroMat 2 2) m ⟨1, 2, fun _ _ => 1⟩ hm Nat.one_pos rfl
      (by norm_num) rfl rfl Nat.one_pos⟩

/-- C4: for a grouped adapter layer built over `out_features = 9` with
`group_mask = [true, false, true]` (decomposed state, arbitrary factor
values), the adapter's additive contribution to output columns 3..5 — the
`false`-mask partition — is exactly zero for every input and every factor
value: `lora_ind` is false there and `zero_pad` leaves those positions zero.
The other partitions receive non-zero contributions generically: at concrete
all-ones factors the forward output over a zero base weight is non-zero at
columns 0 and 6 while columns 3..5 are zero. -/
theorem C4_grouped_masking :
    (∀ (inF : ℕ) (W0 : Mat) (b : Option (ℕ → ℚ)) (alpha : ℚ) (r : ℕ) (A B : Mat)
        (x y : Mat), 0 < r →
        (groupedTFT inF W0 b alpha r A B).forward x = some y →
        ∀ i j, 3 ≤ j → j ≤ 5 → y.entry i j = (fLinear x W0 b).entry i j) ∧
    (∃ y, (groupedTFT 1 (zeroMat 9 1) none 1 1 (⟨2, 1, fun _ _ => 1⟩ : Mat)
          (⟨6, 1, fun _ _ => 1⟩ : Mat)).forward (⟨1, 1, fun _ _ => 1⟩ : Mat) = some y ∧
        y.entry 0 3 = 0 ∧ y.entry 0 4 = 0 ∧ y.entry 0 5 = 0 ∧
        y.entry 0 0 ≠ 0 ∧ y.entry 0 6 ≠ 0) := by
  constructor
  · intro inF W0 b alpha r A B x y hr hfwd i j hj1 hj2
    unfold groupedTFT MergedLinear.forward at hfwd
    simp [hr, Option.bind_eq_some] at hfwd
    obtain ⟨t, hconv, mt, hmt, zp, hzpEq, hadd⟩ := hfwd
    obtain ⟨hdr, hdc, hyEq⟩ := matAdd_eq_some hadd
    subst hyEq
    have hzp := zeroPad_eq_some hzpEq
    subst hzp
    have hfalse : (loraIndOf [true, false, true] 9).getD j false = false := by
      have hj : j = 3 ∨ j = 4 ∨ j = 5 := by omega
      rcases hj with rfl | rfl | rfl <;> decide
    show (fLinear x (transposeIf false W0) b).entry i j + _ = (fLinear x W0 b).entry i j
    simp only [Mat.smul, hfalse]
    simp [transposeIf]
  · obtain ⟨y, hy⟩ : ∃ y, (groupedTFT 1 (zeroMat 9 1) none 1 1 (⟨2, 1, fun _ _ => 1⟩ : Mat)
        (⟨6, 1, fun _ _ => 1⟩ : Mat)).forward (⟨1, 1, fun _ _ => 1⟩ : Mat) = some y := ⟨_, rfl⟩
    refine ⟨y, hy, ?_, ?_, ?_, ?_, ?_⟩ <;>
    · unfold groupedTFT MergedLinear.forward at hy
      simp [Option.bind_eq_some] at hy
      obtain ⟨t, hconv, mt, hmt, zp, hzpEq, hadd⟩ := hy
      obtain ⟨T, hconv2, hTsh, hTent⟩ := fConv1d_2d_eq
        (fLinear (⟨1, 1, fun _ _ => 1⟩ : Mat) (⟨2, 1, fun _ _ => 1⟩ : Mat) none).transpose.toT2
        (convWeight3 (⟨6, 1, fun _ _ => 1⟩ : Mat)) 2 2 1 6 1 1
        rfl rfl (by norm_num) (by norm_num) (by norm_num) (by norm_num) (by norm_num)
      rw [show conv1dModule (⟨6, 1, fun _ _ => 1⟩ : Mat)
          (fLinear (⟨1, 1, fun _ _ => 1⟩ : Mat) (⟨2, 1, fun _ _ => 1⟩ : Mat) none).transpose.toT2 =
          some T from hconv2] at hconv
      obtain rfl := Option.some.inj hconv
      obtain ⟨Tsh, Tent⟩ := T
      replace hTsh : Tsh = [6, 1 - 1 + 1] := hTsh
      subst hTsh
      replace hTent : ∀ o p, Tent [o, p] = ∑ j ∈ Finset.range 1, ∑ tt ∈ Finset.range 1,
          (convWeight3 (⟨6, 1, fun _ _ => 1⟩ : Mat)).entry [o, j, tt] *
            (fLinear (⟨1, 1, fun _ _ => 1⟩ : Mat) (⟨2, 1, fun _ _ => 1⟩ : Mat)
              none).transpose.toT2.entry [o / (6 / 2) * 1 + j, p + tt] := hTent
      simp only [Tensor.toMat2] at hmt
      obtain rfl := Option.some.inj hmt
      have hzp := zeroPad_eq_some hzpEq
      subst hzp
      obtain ⟨hdr, hdc, hyEq⟩ := matAdd_eq_some hadd
      subst hyEq
      have hc0 : (loraIndOf [true, false, true] 9).getD 0 false = true := by decide
      have hc3 : (loraIndOf [true, false, true] 9).getD 3 false = false := by decide
      have hc4 : (loraIndOf [true, false, true] 9).getD 4 false = false := by decide
      have hc5 : (loraIndOf [true, false, true] 9).getD 5 false = false := by decide
      have hc6 : (loraIndOf [true, false, true] 9).getD 6 false = true := by decide
      have hq0 : ((loraIndOf [true, false, true] 9).take 0).count true = 0 := by decide
      have hq6 : ((loraIndOf [true, false, true] 9).take 6).count true = 3 := by decide
      simp only [Mat.smul, Mat.transpose, MergedLinear.scaling, MergedLinear.padK,
        hc0, hc3, hc4, hc5, hc6, hq0, hq6]
      norm_num [hTent, fLinear, zeroMat, transposeIf, convWeight3, Mat.toT2,
        Mat.transpose, Finset.sum_range_succ, Finset.sum_range_zero]


/-- C4 witness: the masked-partition conclusion applied at the concrete
all-ones grouped layer and input. -/
theorem C4_grouped_masking_witness :
    ∃ y, (groupedTFT 1 (zeroMat 9 1) none 1 1 (⟨2, 1, fun _ _ => 1⟩ : Mat)
        (⟨6, 1, fun _ _ => 1⟩ : Mat)).forward (⟨1, 1, fun _ _ => 1⟩ : Mat) = some y ∧
      y.entry 0 4 = (fLinear (⟨1, 1, fun _ _ => 1⟩ : Mat) (zeroMat 9 1) none).entry 0 4 := by
  obtain ⟨y, hy⟩ : ∃ y, (groupedTFT 1 (zeroMat 9 1) none 1 1 (⟨2, 1, fun _ _ => 1⟩ : Mat)
      (⟨6, 1, fun _ _ => 1⟩ : Mat)).forward (⟨1, 1, fun _ _ => 1⟩ : Mat) = some y := ⟨_, rfl⟩
  exact ⟨y, hy, C4_grouped_masking.1 1 (zeroMat 9 1) none 1 1 (⟨2, 1, fun _ _ => 1⟩ : Mat)
    (⟨6, 1, fun _ _ => 1⟩ : Mat) (⟨1, 1, fun _ _ => 1⟩ : Mat) y Nat.one_pos hy 0 4
    (by norm_num) (by norm_num)⟩

end Peft
